import Mathlib

/-!
Shallow embedding of the Listchecker screening service (`src/app.py`).

The embedding models:
* `normalize_text` (app.py lines 27-31): text normalization used everywhere;
* `load_database_set` (app.py lines 33-86): the reference set builder, over an
  abstract file system (folder-existence flag plus per-file read outcome);
* the row classifier inside `upload_file` (app.py lines 122-162): column
  detection, per-row key derivation and classification.

Cell values are `Option String`: `Option.none` stands for a null/NaN cell,
`Option.some s` for a cell whose Python `str()` rendering is `s`. Python's
`.lower()`/`.strip()` are modelled character-wise by `pyLower`/`pyStrip`.
-/

namespace ListChecker

/-- Character-list lowercasing, modelling Python `str.lower` (ASCII range). -/
def lowerChars (l : List Char) : List Char := l.map Char.toLower

/-- Character-list trim of leading and trailing whitespace, modelling `str.strip()`. -/
def trimChars (l : List Char) : List Char :=
  ((l.dropWhile Char.isWhitespace).reverse.dropWhile Char.isWhitespace).reverse

/-- `str.lower()` on strings. -/
def pyLower (s : String) : String := ⟨lowerChars s.data⟩

/-- `str.strip()` on strings. -/
def pyStrip (s : String) : String := ⟨trimChars s.data⟩

/-- A cell value: `none` is null/NaN, `some s` a cell printing as `s`. -/
abbrev Value := Option String

/-- A row: association list from column header to cell value. -/
abbrev Row := List (String × Value)

/-- `normalize_text` (app.py lines 27-31): null/NaN and the literal text
`"nan"` (case-insensitive) become `""`; otherwise lowercase then strip. -/
def normalize_text : Value → String
  | Option.none => ""
  | Option.some s => if pyLower s = "nan" then "" else pyStrip (pyLower s)

/-- Header normalization applied to `df.columns` (app.py line 57) and in the
classifier's column detection (app.py lines 123-129): lowercase then strip. -/
def normHeader (h : String) : String := pyStrip (pyLower h)

/-- First-name header aliases, in source order (app.py lines 63-65 and 123). -/
def firstAliases : List String := ["first name", "voor naam", "naam"]

/-- Last-name header aliases, in source order (app.py lines 67-68 and 124). -/
def lastAliases : List String := ["last name", "achternaam"]

/-- Company header aliases of the reference set builder, in source order
(app.py lines 70-75). -/
def companyAliasesDB : List String :=
  ["company name", "company", "huidig bedrijf", "currrent company",
   "current company", "company table data"]

/-- First-match-wins field extraction of `load_database_set` (app.py lines
60-75): try each alias in order against the row's headers; the field starts
out as the empty string when no alias is present. -/
def extractField (row : Row) : List String → Value
  | [] => Option.some ""
  | a :: rest =>
    match row.lookup a with
    | Option.some v => v
    | Option.none => extractField row rest

/-- Normalize a row's headers, modelling line 57 acting on the whole table. -/
def normRowHeaders (row : Row) : Row := row.map (fun p => (normHeader p.1, p.2))

/-- `full_name` of the builder (app.py line 77), on a header-normalized row. -/
def rowFullName (row : Row) : String :=
  pyStrip (normalize_text (extractField row firstAliases) ++ " "
            ++ normalize_text (extractField row lastAliases))

/-- `norm_company` of the builder (app.py line 80), on a header-normalized row. -/
def rowCompany (row : Row) : String := normalize_text (extractField row companyAliasesDB)

/-- One builder iteration (app.py lines 59-81): add the non-empty full name to
the names set and the non-empty normalized company to the companies set. -/
def processRow (acc : Finset String × Finset String) (row : Row) :
    Finset String × Finset String :=
  let full_name := rowFullName row
  let acc1 := if full_name ≠ "" then (insert full_name acc.1, acc.2) else acc
  let norm_company := rowCompany row
  if norm_company ≠ "" then (acc1.1, insert norm_company acc1.2) else acc1

/-- Fold one parsed reference file into the accumulated sets (app.py lines
57-81): headers are normalized once, then each row is processed. -/
def processTable (acc : Finset String × Finset String) (rows : List Row) :
    Finset String × Finset String :=
  rows.foldl (fun a r => processRow a (normRowHeaders r)) acc

/-- Outcome of reading one reference file: absent on disk, unparsable
(the caught exception of app.py lines 83-84), or a parsed table. -/
inductive FileResult
  | missing
  | parseError
  | table (rows : List Row)

/-- Abstract file system seen by the builder: whether the configured folder
exists, and the read outcome of each file name inside it. -/
structure FileSystem where
  folderExists : Bool
  readFile : String → FileResult

/-- The per-file step of `load_database_set` (app.py lines 42-84): a missing
file is skipped, a file whose parse raises is caught and contributes nothing,
a parsed table is folded in. -/
def loadStep (fs : FileSystem) (acc : Finset String × Finset String)
    (fname : String) : Finset String × Finset String :=
  match fs.readFile fname with
  | FileResult.missing => acc
  | FileResult.parseError => acc
  | FileResult.table rows => processTable acc rows

/-- `load_database_set` (app.py lines 33-86): an absent folder yields two empty
sets; otherwise fold the listed files, where missing or unparsable files
contribute nothing. -/
def load_database_set (fs : FileSystem) (filenames : List String) :
    Finset String × Finset String :=
  if fs.folderExists then filenames.foldl (loadStep fs) (∅, ∅)
  else (∅, ∅)

/-- A reference group: the `names` and `companies` sets built at startup. -/
structure RefGroup where
  names : Finset String
  companies : Finset String

/-- Company header candidates of the classifier, in source order (app.py
line 127). -/
def possible_company_headers : List String :=
  ["company table data", "company name", "huidig bedrijf", "company", "name"]

/-- Whether a raw header matches one of the aliases after normalization
(app.py lines 123-124: `str(c).lower().strip() in [...]`). -/
def matchesAlias (aliases : List String) (c : String) : Bool :=
  aliases.contains (normHeader c)

/-- Name-column detection (app.py lines 123-124): the first column, in table
order, whose normalized header is one of the aliases. -/
def detectCol (headers : List String) (aliases : List String) : Option String :=
  headers.find? (matchesAlias aliases)

/-- Company-column detection (app.py lines 126-132): for each candidate header
in order, look for a column matching it exactly; first hit wins. -/
def detectCompanyCol (headers : List String) : Option String :=
  possible_company_headers.findSome?
    (fun h => headers.find? (fun c => normHeader c = h))

/-- Cell access `row[col]` for a detected column. -/
def cellAt (row : Row) (c : String) : Value := (row.lookup c).getD Option.none

/-- `user_name` derivation (app.py lines 138-140): non-empty only when both a
first-name and a last-name column were detected. -/
def derive_user_name (fc lc : Option String) (row : Row) : String :=
  match fc, lc with
  | Option.some f, Option.some l =>
    pyStrip (normalize_text (cellAt row f) ++ " " ++ normalize_text (cellAt row l))
  | _, _ => ""

/-- `user_company` derivation (app.py line 142). -/
def derive_user_company (cc : Option String) (row : Row) : String :=
  match cc with
  | Option.some c => normalize_text (cellAt row c)
  | Option.none => ""

/-- The match test of app.py lines 147-148: a non-empty user name in the
group's names, or a non-empty user company in the group's companies. -/
def matchesGroup (g : RefGroup) (user_name user_company : String) : Prop :=
  (user_name ≠ "" ∧ user_name ∈ g.names) ∨
  (user_company ≠ "" ∧ user_company ∈ g.companies)

instance (g : RefGroup) (n c : String) : Decidable (matchesGroup g n c) := by
  unfold matchesGroup
  exact inferInstance

/-- Row classification (app.py lines 137-162): IMNEO first, then X-CLIENT
(mode-dependent), else Safe. The mode is the raw `request.form.get('mode')`,
hence an `Option String`. Result is the (status, color) pair. -/
def classify_row (mode : Option String) (imneo xclient : RefGroup)
    (fc lc cc : Option String) (row : Row) : String × String :=
  let user_name := derive_user_name fc lc row
  let user_company := derive_user_company cc row
  if matchesGroup imneo user_name user_company then
    ("IMNEO Match (Restricted)", "FF0000")
  else if matchesGroup xclient user_name user_company then
    if mode = Option.some ("candidate") then
      ("X-Client Match (Candidate Mode)", "FF0000")
    else
      ("X-Client Match (Client/Relation)", "FFFF00")
  else ("Safe", "FFFFFF")

/-- An uploaded table: raw headers plus rows. -/
structure Table where
  headers : List String
  rows : List Row

/-- Whole-table classification (app.py lines 122-162): detect the columns once,
then classify every row in order. -/
def classify_table (mode : Option String) (imneo xclient : RefGroup)
    (t : Table) : List (String × String) :=
  let fc := detectCol t.headers firstAliases
  let lc := detectCol t.headers lastAliases
  let cc := detectCompanyCol t.headers
  t.rows.map (classify_row mode imneo xclient fc lc cc)

/-! ### Helper lemmas on characters and strings -/

theorem char_toNat_ofNat_valid {n : Nat} (h : n.isValidChar) : (Char.ofNat n).toNat = n := by
  simp [Char.ofNat, h, Char.ofNatAux, Char.toNat, UInt32.toNat, BitVec.toNat_ofNatLt]

theorem char_toLower_idem (c : Char) : c.toLower.toLower = c.toLower := by
  by_cases h : c.toNat ≥ 65 ∧ c.toNat ≤ 90
  · have hv : (c.toNat + 32).isValidChar := Or.inl (by omega)
    have ht : (Char.ofNat (c.toNat + 32)).toNat = c.toNat + 32 := char_toNat_ofNat_valid hv
    simp only [Char.toLower, if_pos h]
    rw [if_neg]
    rw [ht]
    omega
  · simp only [Char.toLower, if_neg h]

theorem char_not_ws_of_toNat (c : Char) (h32 : c.toNat ≠ 32) (h9 : c.toNat ≠ 9)
    (h13 : c.toNat ≠ 13) (h10 : c.toNat ≠ 10) : c.isWhitespace = false := by
  simp only [Char.isWhitespace, Bool.or_eq_false_iff, decide_eq_false_iff_not]
  refine ⟨⟨⟨?_, ?_⟩, ?_⟩, ?_⟩ <;> intro hc <;> subst hc <;> simp_all

theorem char_ws_toLower (c : Char) : c.toLower.isWhitespace = c.isWhitespace := by
  by_cases h : c.toNat ≥ 65 ∧ c.toNat ≤ 90
  · have hv : (c.toNat + 32).isValidChar := Or.inl (by omega)
    have ht : (Char.ofNat (c.toNat + 32)).toNat = c.toNat + 32 := char_toNat_ofNat_valid hv
    simp only [Char.toLower, if_pos h]
    rw [char_not_ws_of_toNat, char_not_ws_of_toNat c] <;> omega
  · simp only [Char.toLower, if_neg h]

theorem lowerChars_idem (l : List Char) : lowerChars (lowerChars l) = lowerChars l := by
  simp only [lowerChars, List.map_map]
  exact List.map_congr_left (fun c _ => char_toLower_idem c)

theorem trimChars_eq_rdrop (l : List Char) :
    trimChars l = List.rdropWhile Char.isWhitespace (l.dropWhile Char.isWhitespace) := rfl

theorem dropWhile_trimChars (l : List Char) :
    (trimChars l).dropWhile Char.isWhitespace = trimChars l := by
  rw [List.dropWhile_eq_self_iff]
  intro hl
  have hpre : trimChars l <+: l.dropWhile Char.isWhitespace := List.rdropWhile_prefix _ _
  have hlen : 0 < (l.dropWhile Char.isWhitespace).length :=
    Nat.lt_of_lt_of_le hl hpre.length_le
  have hget := List.dropWhile_get_zero_not Char.isWhitespace l hlen
  have : (trimChars l).get ⟨0, hl⟩ = (l.dropWhile Char.isWhitespace).get ⟨0, hlen⟩ := by
    simpa using hpre.getElem (by simpa using hl)
  rw [this]
  exact hget

theorem rdropWhile_trimChars (l : List Char) :
    List.rdropWhile Char.isWhitespace (trimChars l) = trimChars l := by
  rw [trimChars_eq_rdrop]
  exact List.rdropWhile_idempotent _ _

theorem trimChars_idem (l : List Char) : trimChars (trimChars l) = trimChars l := by
  rw [trimChars_eq_rdrop (trimChars l), dropWhile_trimChars, rdropWhile_trimChars]

theorem dropWhile_lowerChars (l : List Char) :
    (lowerChars l).dropWhile Char.isWhitespace = lowerChars (l.dropWhile Char.isWhitespace) := by
  simp only [lowerChars]
  rw [List.dropWhile_map]
  have hp : (Char.isWhitespace ∘ Char.toLower) = Char.isWhitespace := funext char_ws_toLower
  rw [hp]

theorem trimChars_lowerChars (l : List Char) :
    trimChars (lowerChars l) = lowerChars (trimChars l) := by
  simp only [trimChars, lowerChars]
  rw [← lowerChars, dropWhile_lowerChars]
  simp only [lowerChars]
  rw [← List.map_reverse, List.dropWhile_map]
  rw [List.map_reverse]
  have hp : (Char.isWhitespace ∘ Char.toLower) = Char.isWhitespace := funext char_ws_toLower
  rw [hp]

theorem trimChars_concat_space (l : List Char) :
    trimChars (trimChars l ++ [' ']) = trimChars l := by
  by_cases h : trimChars l = []
  · rw [h]
    decide
  · rw [trimChars_eq_rdrop (trimChars l ++ [' '])]
    rw [List.dropWhile_append]
    rw [dropWhile_trimChars]
    have h2 : ¬((trimChars l).isEmpty = true) := by simpa [List.isEmpty_iff] using h
    rw [if_neg h2]
    rw [List.rdropWhile_concat_pos _ _ _ (by decide)]
    exact rdropWhile_trimChars l

theorem trimChars_space_cons (l : List Char) :
    trimChars (' ' :: trimChars l) = trimChars l := by
  rw [trimChars_eq_rdrop (' ' :: trimChars l)]
  rw [List.dropWhile_cons_of_pos (by decide)]
  rw [dropWhile_trimChars]
  exact rdropWhile_trimChars l

theorem pyStrip_pyStrip (s : String) : pyStrip (pyStrip s) = pyStrip s :=
  String.ext (trimChars_idem s.data)

theorem pyLower_pyStrip_pyLower (s : String) :
    pyLower (pyStrip (pyLower s)) = pyStrip (pyLower s) := by
  apply String.ext
  show lowerChars (trimChars (lowerChars s.data)) = trimChars (lowerChars s.data)
  rw [← trimChars_lowerChars, lowerChars_idem]

theorem normalize_shape (v : Value) :
    normalize_text v = "" ∨ ∃ s : String, normalize_text v = pyStrip (pyLower s) := by
  cases v with
  | none => exact Or.inl rfl
  | some s =>
    by_cases hn : pyLower s = "nan"
    · exact Or.inl (by simp [normalize_text, hn])
    · exact Or.inr ⟨s, by simp [normalize_text, hn]⟩

theorem normalize_idem_of_ne_nan (x : Value) (h : normalize_text x ≠ "nan") :
    normalize_text (Option.some (normalize_text x)) = normalize_text x := by
  cases x with
  | none => decide
  | some s =>
    by_cases hn : pyLower s = "nan"
    · simp only [normalize_text, if_pos hn]
      decide
    · simp only [normalize_text, if_neg hn] at h ⊢
      rw [pyLower_pyStrip_pyLower, if_neg h, pyStrip_pyStrip]

theorem pyStrip_norm_space_empty (v : Value) :
    pyStrip ((normalize_text v ++ " ") ++ "") = normalize_text v := by
  rcases normalize_shape v with h | ⟨s, h⟩
  · rw [h]
    decide
  · rw [h]
    apply String.ext
    show trimChars ((trimChars (lowerChars s.data) ++ [' ']) ++ []) = trimChars (lowerChars s.data)
    rw [List.append_nil]
    exact trimChars_concat_space (lowerChars s.data)

theorem pyStrip_empty_space_norm (v : Value) :
    pyStrip ((("" : String) ++ " ") ++ normalize_text v) = normalize_text v := by
  rcases normalize_shape v with h | ⟨s, h⟩
  · rw [h]
    decide
  · rw [h]
    apply String.ext
    show trimChars (([] ++ [' ']) ++ trimChars (lowerChars s.data)) = trimChars (lowerChars s.data)
    rw [List.nil_append]
    exact trimChars_space_cons (lowerChars s.data)

/-! ### Helper lemmas on the builder's field extraction and set folding -/

theorem extractField_of_earlier_none (row : Row) (pre post : List String) (a : String) (v : Value)
    (hpre : ∀ b ∈ pre, row.lookup b = Option.none)
    (ha : row.lookup a = Option.some v) :
    extractField row (pre ++ a :: post) = v := by
  induction pre with
  | nil => simp [extractField, ha]
  | cons b pre' ih =>
    have hb : row.lookup b = Option.none := hpre b (List.mem_cons_self b pre')
    simp only [List.cons_append, extractField, hb]
    exact ih (fun y hy => hpre y (List.mem_cons_of_mem b hy))

theorem extractField_of_all_none (row : Row) (aliases : List String)
    (h : ∀ b ∈ aliases, row.lookup b = Option.none) :
    extractField row aliases = Option.some "" := by
  induction aliases with
  | nil => rfl
  | cons b rest ih =>
    have hb : row.lookup b = Option.none := h b (List.mem_cons_self b rest)
    simp only [extractField, hb]
    exact ih (fun y hy => h y (List.mem_cons_of_mem b hy))

theorem norm_empty_string : normalize_text (Option.some "") = "" := rfl

theorem classify_row_empty_groups (mode : Option String) (fc lc cc : Option String) (row : Row) :
    classify_row mode ⟨∅, ∅⟩ ⟨∅, ∅⟩ fc lc cc row = ("Safe", "FFFFFF") := by
  simp [classify_row, matchesGroup]

theorem mem_processRow_fst (acc : Finset String × Finset String) (row : Row) (x : String) :
    x ∈ (processRow acc row).1 ↔
      (rowFullName row ≠ "" ∧ x = rowFullName row) ∨ x ∈ acc.1 := by
  simp only [processRow]
  split_ifs with hf hc <;> simp_all [Finset.mem_insert]

theorem mem_processRow_snd (acc : Finset String × Finset String) (row : Row) (x : String) :
    x ∈ (processRow acc row).2 ↔
      (rowCompany row ≠ "" ∧ x = rowCompany row) ∨ x ∈ acc.2 := by
  simp only [processRow]
  split_ifs with hf hc <;> simp_all [Finset.mem_insert]

theorem mem_processTable_fst (rows : List Row) (acc : Finset String × Finset String) (x : String) :
    x ∈ (processTable acc rows).1 ↔
      (∃ row ∈ rows, rowFullName (normRowHeaders row) ≠ ""
        ∧ x = rowFullName (normRowHeaders row))
      ∨ x ∈ acc.1 := by
  induction rows generalizing acc with
  | nil => simp [processTable]
  | cons r rest ih =>
    simp only [processTable, List.foldl_cons]
    rw [show List.foldl (fun a t => processRow a (normRowHeaders t))
          (processRow acc (normRowHeaders r)) rest
        = processTable (processRow acc (normRowHeaders r)) rest from rfl]
    rw [ih, mem_processRow_fst]
    simp only [List.mem_cons]
    constructor
    · rintro (⟨row, hr, h1, h2⟩ | ⟨h1, h2⟩ | h)
      · exact Or.inl ⟨row, Or.inr hr, h1, h2⟩
      · exact Or.inl ⟨r, Or.inl rfl, h1, h2⟩
      · exact Or.inr h
    · rintro (⟨row, hr | hr, h1, h2⟩ | h)
      · subst hr
        exact Or.inr (Or.inl ⟨h1, h2⟩)
      · exact Or.inl ⟨row, hr, h1, h2⟩
      · exact Or.inr (Or.inr h)

theorem mem_processTable_snd (rows : List Row) (acc : Finset String × Finset String) (x : String) :
    x ∈ (processTable acc rows).2 ↔
      (∃ row ∈ rows, rowCompany (normRowHeaders row) ≠ ""
        ∧ x = rowCompany (normRowHeaders row))
      ∨ x ∈ acc.2 := by
  induction rows generalizing acc with
  | nil => simp [processTable]
  | cons r rest ih =>
    simp only [processTable, List.foldl_cons]
    rw [show List.foldl (fun a t => processRow a (normRowHeaders t))
          (processRow acc (normRowHeaders r)) rest
        = processTable (processRow acc (normRowHeaders r)) rest from rfl]
    rw [ih, mem_processRow_snd]
    simp only [List.mem_cons]
    constructor
    · rintro (⟨row, hr, h1, h2⟩ | ⟨h1, h2⟩ | h)
      · exact Or.inl ⟨row, Or.inr hr, h1, h2⟩
      · exact Or.inl ⟨r, Or.inl rfl, h1, h2⟩
      · exact Or.inr h
    · rintro (⟨row, hr | hr, h1, h2⟩ | h)
      · subst hr
        exact Or.inr (Or.inl ⟨h1, h2⟩)
      · exact Or.inl ⟨row, hr, h1, h2⟩
      · exact Or.inr (Or.inr h)

theorem mem_loadFold_fst (fs : FileSystem) (fnames : List String)
    (acc : Finset String × Finset String) (x : String) :
    x ∈ (List.foldl (loadStep fs) acc fnames).1 ↔
      (∃ fname ∈ fnames, ∃ rows, fs.readFile fname = FileResult.table rows ∧
        ∃ row ∈ rows, rowFullName (normRowHeaders row) ≠ ""
          ∧ x = rowFullName (normRowHeaders row))
      ∨ x ∈ acc.1 := by
  induction fnames generalizing acc with
  | nil => simp
  | cons f rest ih =>
    simp only [List.foldl_cons, List.mem_cons]
    rw [ih]
    rcases hread : fs.readFile f with _ | _ | rows0
    · simp only [loadStep, hread]
      constructor
      · rintro (⟨g, hg, h⟩ | h)
        · exact Or.inl ⟨g, Or.inr hg, h⟩
        · exact Or.inr h
      · rintro (⟨g, rfl | hg, rows1, hr1, h⟩ | h)
        · rw [hread] at hr1
          cases hr1
        · exact Or.inl ⟨g, hg, rows1, hr1, h⟩
        · exact Or.inr h
    · simp only [loadStep, hread]
      constructor
      · rintro (⟨g, hg, h⟩ | h)
        · exact Or.inl ⟨g, Or.inr hg, h⟩
        · exact Or.inr h
      · rintro (⟨g, rfl | hg, rows1, hr1, h⟩ | h)
        · rw [hread] at hr1
          cases hr1
        · exact Or.inl ⟨g, hg, rows1, hr1, h⟩
        · exact Or.inr h
    · simp only [loadStep, hread]
      rw [mem_processTable_fst]
      constructor
      · rintro (⟨g, hg, h⟩ | ⟨row, hrow, h1, h2⟩ | h)
        · exact Or.inl ⟨g, Or.inr hg, h⟩
        · exact Or.inl ⟨f, Or.inl rfl, rows0, hread, row, hrow, h1, h2⟩
        · exact Or.inr h
      · rintro (⟨g, rfl | hg, rows1, hr1, row, hrow, h1, h2⟩ | h)
        · rw [hread] at hr1
          cases hr1
          exact Or.inr (Or.inl ⟨row, hrow, h1, h2⟩)
        · exact Or.inl ⟨g, hg, rows1, hr1, row, hrow, h1, h2⟩
        · exact Or.inr (Or.inr h)

theorem mem_loadFold_snd (fs : FileSystem) (fnames : List String)
    (acc : Finset String × Finset String) (x : String) :
    x ∈ (List.foldl (loadStep fs) acc fnames).2 ↔
      (∃ fname ∈ fnames, ∃ rows, fs.readFile fname = FileResult.table rows ∧
        ∃ row ∈ rows, rowCompany (normRowHeaders row) ≠ ""
          ∧ x = rowCompany (normRowHeaders row))
      ∨ x ∈ acc.2 := by
  induction fnames generalizing acc with
  | nil => simp
  | cons f rest ih =>
    simp only [List.foldl_cons, List.mem_cons]
    rw [ih]
    rcases hread : fs.readFile f with _ | _ | rows0
    · simp only [loadStep, hread]
      constructor
      · rintro (⟨g, hg, h⟩ | h)
        · exact Or.inl ⟨g, Or.inr hg, h⟩
        · exact Or.inr h
      · rintro (⟨g, rfl | hg, rows1, hr1, h⟩ | h)
        · rw [hread] at hr1
          cases hr1
        · exact Or.inl ⟨g, hg, rows1, hr1, h⟩
        · exact Or.inr h
    · simp only [loadStep, hread]
      constructor
      · rintro (⟨g, hg, h⟩ | h)
        · exact Or.inl ⟨g, Or.inr hg, h⟩
        · exact Or.inr h
      · rintro (⟨g, rfl | hg, rows1, hr1, h⟩ | h)
        · rw [hread] at hr1
          cases hr1
        · exact Or.inl ⟨g, hg, rows1, hr1, h⟩
        · exact Or.inr h
    · simp only [loadStep, hread]
      rw [mem_processTable_snd]
      constructor
      · rintro (⟨g, hg, h⟩ | ⟨row, hrow, h1, h2⟩ | h)
        · exact Or.inl ⟨g, Or.inr hg, h⟩
        · exact Or.inl ⟨f, Or.inl rfl, rows0, hread, row, hrow, h1, h2⟩
        · exact Or.inr h
      · rintro (⟨g, rfl | hg, rows1, hr1, row, hrow, h1, h2⟩ | h)
        · rw [hread] at hr1
          cases hr1
          exact Or.inr (Or.inl ⟨row, hrow, h1, h2⟩)
        · exact Or.inl ⟨g, hg, rows1, hr1, row, hrow, h1, h2⟩
        · exact Or.inr (Or.inr h)

/-! ### Claim theorems -/

/-- Claim C1: for every input row and every operating mode, if the row's derived
key matches the IMNEO group (non-empty user name in its names, or non-empty user
company in its companies) then the classification result is status
`IMNEO Match (Restricted)` with color `FF0000`, even when the same key also
matches X-CLIENT; an X-CLIENT outcome is never produced for such a row. -/
theorem imneo_precedence (mode : Option String) (imneo xclient : RefGroup)
    (fc lc cc : Option String) (row : Row)
    (h : matchesGroup imneo (derive_user_name fc lc row) (derive_user_company cc row)) :
    classify_row mode imneo xclient fc lc cc row = ("IMNEO Match (Restricted)", "FF0000") := by
  simp only [classify_row]
  rw [if_pos h]

/-- Witness for `imneo_precedence`: a concrete row whose name is in both
groups classifies as IMNEO, not X-CLIENT. -/
theorem imneo_precedence_witness :
    classify_row (Option.some ("client")) ⟨{"jane doe"}, ∅⟩ ⟨{"jane doe"}, {"acme corp"}⟩
      (Option.some ("first name")) (Option.some ("last name")) Option.none
      [("first name", Option.some ("Jane")), ("last name", Option.some ("Doe"))]
      = ("IMNEO Match (Restricted)", "FF0000") :=
  imneo_precedence _ _ _ _ _ _ _ (by decide)

/-- Claim C2: for every input row that matches X-CLIENT but not IMNEO, mode
`candidate` gives status `X-Client Match (Candidate Mode)` with color `FF0000`,
and every other mode value gives status `X-Client Match (Client/Relation)` with
color `FFFF00`. -/
theorem xclient_mode_sensitivity (mode : Option String) (imneo xclient : RefGroup)
    (fc lc cc : Option String) (row : Row)
    (hni : ¬ matchesGroup imneo (derive_user_name fc lc row) (derive_user_company cc row))
    (hx : matchesGroup xclient (derive_user_name fc lc row) (derive_user_company cc row)) :
    classify_row mode imneo xclient fc lc cc row =
      if mode = Option.some ("candidate") then ("X-Client Match (Candidate Mode)", "FF0000")
      else ("X-Client Match (Client/Relation)", "FFFF00") := by
  simp only [classify_row]
  rw [if_neg hni, if_pos hx]

/-- Witness for `xclient_mode_sensitivity`: an X-CLIENT-only company match in
candidate mode is red. -/
theorem xclient_mode_sensitivity_witness :
    classify_row (Option.some ("candidate")) ⟨∅, ∅⟩ ⟨∅, {"acme corp"}⟩
      Option.none Option.none (Option.some ("company"))
      [("company", Option.some ("Acme Corp"))]
      = ("X-Client Match (Candidate Mode)", "FF0000") :=
  (xclient_mode_sensitivity _ _ _ _ _ _ _ (by decide) (by decide)).trans (by decide)

/-- Claim C3 counterexample: with a first-name column detected but no last-name
column, the derived user name is NOT the normalized single present component
(the code requires both columns, app.py line 139), refuting the claim that each
key component degrades to empty independently. -/
theorem name_component_independence_cex :
    ¬ (derive_user_name (detectCol ["first name"] firstAliases)
        (detectCol ["first name"] lastAliases)
        [("first name", Option.some ("Jane"))]
        = normalize_text (Option.some ("Jane"))) := by decide

/-- Claim C3 as amended: the two name components do not degrade independently;
whenever either the first-name column or the last-name column is undetected,
the derived user name is the empty string for every row. -/
theorem name_key_requires_both_columns (headers : List String) (row : Row)
    (h : detectCol headers firstAliases = Option.none
         ∨ detectCol headers lastAliases = Option.none) :
    derive_user_name (detectCol headers firstAliases) (detectCol headers lastAliases) row = "" := by
  rcases h with h | h
  · rw [h]
    cases detectCol headers lastAliases <;> rfl
  · rw [h]
    cases detectCol headers firstAliases <;> rfl

/-- Witness for `name_key_requires_both_columns` at a table having only a
first-name column. -/
theorem name_key_requires_both_columns_witness :
    derive_user_name (detectCol ["first name"] firstAliases)
      (detectCol ["first name"] lastAliases)
      [("first name", Option.some ("Jane"))] = "" :=
  name_key_requires_both_columns _ _ (Or.inr (by decide))

/-- Claim C4 counterexample: `normalize_text` is not idempotent — the input
`"nan "` normalizes to `"nan"`, which then normalizes to `""`. -/
theorem normalize_idempotent_cex :
    ¬ (normalize_text (Option.some (normalize_text (Option.some ("nan "))))
        = normalize_text (Option.some ("nan "))) := by decide

/-- Claim C4 as amended: `normalize_text` is idempotent on every input whose
normalization is not the string `"nan"` (the only outputs on which a second
normalization differs), and `normalize_text` of null, of `"NaN"` and of `""`
all equal the empty string. -/
theorem normalize_idempotent_amended :
    (∀ x : Value, normalize_text x ≠ "nan" →
        normalize_text (Option.some (normalize_text x)) = normalize_text x)
    ∧ normalize_text Option.none = ""
    ∧ normalize_text (Option.some ("NaN")) = ""
    ∧ normalize_text (Option.some ("")) = "" :=
  ⟨normalize_idem_of_ne_nan, rfl, by decide, by decide⟩

/-- Witness for `normalize_idempotent_amended` at the input `"  NaN Corp "`. -/
theorem normalize_idempotent_amended_witness :
    normalize_text (Option.some ("  NaN Corp ")) ≠ "nan"
    ∧ normalize_text (Option.some (normalize_text (Option.some ("  NaN Corp "))))
        = normalize_text (Option.some ("  NaN Corp ")) :=
  ⟨by decide, normalize_idempotent_amended.1 _ (by decide)⟩

/-- Claim C5 counterexample: in a table whose columns are `naam`, `first name`,
`last name`, the classifier uses the `naam` column for the first-name component
although `first name` is earlier in the alias priority list — detection scans
columns in table order, not aliases in priority order (app.py line 123). -/
theorem first_name_column_priority_cex :
    detectCol ["naam", "first name", "last name"] firstAliases = Option.some ("naam")
    ∧ derive_user_name (detectCol ["naam", "first name", "last name"] firstAliases)
        (detectCol ["naam", "first name", "last name"] lastAliases)
        [("naam", Option.some ("Alice")), ("first name", Option.some ("Jane")),
         ("last name", Option.some ("Doe"))] = "alice doe"
    ∧ ("alice doe" : String) ≠ "jane doe" := by
  refine ⟨rfl, by decide, by decide⟩

/-- Claim C5 as amended: name-column detection picks the first column in the
table's own column order whose lowercased-trimmed header is any of the aliases;
the alias list acts as a set, not as a priority order. -/
theorem name_column_detection_amended (headers aliases : List String) (i : Nat)
    (hi : i < headers.length)
    (hmatch : matchesAlias aliases (headers.get ⟨i, hi⟩) = true)
    (hbefore : ∀ j (hj : j < i),
      matchesAlias aliases (headers.get ⟨j, Nat.lt_trans hj hi⟩) = false) :
    detectCol headers aliases = Option.some (headers.get ⟨i, hi⟩) := by
  induction headers generalizing i with
  | nil => exact absurd hi (Nat.not_lt_zero i)
  | cons h t ih =>
    cases i with
    | zero =>
      simp only [List.get] at hmatch ⊢
      unfold detectCol
      rw [List.find?_cons_of_pos _ hmatch]
    | succ i' =>
      have h0 : matchesAlias aliases h = false := by
        have := hbefore 0 (Nat.succ_pos i')
        simpa using this
      unfold detectCol at ih ⊢
      rw [List.find?_cons_of_neg _ (by simp [h0])]
      exact ih i' (Nat.lt_of_succ_lt_succ hi) hmatch
        (fun j hj => hbefore (j + 1) (Nat.succ_lt_succ hj))

/-- Witness for `name_column_detection_amended`: the second column `naam` is
selected when the first column matches no alias. -/
theorem name_column_detection_amended_witness :
    detectCol ["employee id", "naam"] firstAliases = Option.some ("naam") :=
  name_column_detection_amended ["employee id", "naam"] firstAliases 1
    (by decide) (by decide) (by decide)

/-- Claim C9: whole-table classification yields exactly one result per input
row, and the result at every index is the classification of the input row at
that same index (order-preserving). -/
theorem output_aligned_with_input (mode : Option String) (imneo xclient : RefGroup) (t : Table) :
    (classify_table mode imneo xclient t).length = t.rows.length
    ∧ ∀ i : Nat, (classify_table mode imneo xclient t)[i]? =
        Option.map (classify_row mode imneo xclient (detectCol t.headers firstAliases)
          (detectCol t.headers lastAliases) (detectCompanyCol t.headers)) t.rows[i]? := by
  constructor
  · simp [classify_table]
  · intro i
    simp [classify_table]

/-- Claim C6: the empty normalized key is inert — the reference set builder
never puts the empty string into a names or companies set, and a row whose
derived user name and user company are both empty classifies `Safe` with color
`FFFFFF` against any reference groups and mode. -/
theorem empty_key_inert :
    (∀ (fs : FileSystem) (fnames : List String),
        "" ∉ (load_database_set fs fnames).1 ∧ "" ∉ (load_database_set fs fnames).2)
    ∧ (∀ (mode : Option String) (imneo xclient : RefGroup) (fc lc cc : Option String) (row : Row),
        derive_user_name fc lc row = "" → derive_user_company cc row = "" →
        classify_row mode imneo xclient fc lc cc row = ("Safe", "FFFFFF")) := by
  constructor
  · intro fs fnames
    unfold load_database_set
    split_ifs with hf
    · constructor
      · rw [mem_loadFold_fst]
        rintro (⟨g, hg, rows, hr, row, hrow, h1, h2⟩ | h)
        · exact h1 h2.symm
        · simp at h
      · rw [mem_loadFold_snd]
        rintro (⟨g, hg, rows, hr, row, hrow, h1, h2⟩ | h)
        · exact h1 h2.symm
        · simp at h
    · constructor <;> simp
  · intro mode imneo xclient fc lc cc row hn hc
    simp [classify_row, hn, hc, matchesGroup]

/-- Witness for `empty_key_inert`: a whitespace-only reference name contributes
nothing, and a row with no detected columns is `Safe` against non-empty
groups. -/
theorem empty_key_inert_witness :
    "" ∉ (load_database_set
        ⟨true, fun _ => FileResult.table [[("naam", Option.some ("   "))]]⟩ ["imneo.csv"]).1
    ∧ classify_row (Option.some ("candidate")) ⟨{"jane doe"}, {"acme"}⟩ ⟨{"bob"}, {"x"}⟩
        Option.none Option.none Option.none [("other", Option.some ("data"))]
        = ("Safe", "FFFFFF") :=
  ⟨(empty_key_inert.1 _ _).1,
   empty_key_inert.2 _ _ _ _ _ _ _ rfl rfl⟩

/-- Claim C7: fail-open reference loading — an absent source folder yields two
empty sets for every file list, a missing individual file is skipped while the
remaining files are still processed, and with the folder absent every row
classifies `Safe` regardless of its content. -/
theorem fail_open_loading (fs : FileSystem) :
    (fs.folderExists = false → ∀ fnames, load_database_set fs fnames = (∅, ∅))
    ∧ (∀ (f : String) (pre post : List String), fs.readFile f = FileResult.missing →
        load_database_set fs (pre ++ f :: post) = load_database_set fs (pre ++ post))
    ∧ (fs.folderExists = false →
        ∀ (mode : Option String) (fns1 fns2 : List String) (fc lc cc : Option String) (row : Row),
        classify_row mode
          ⟨(load_database_set fs fns1).1, (load_database_set fs fns1).2⟩
          ⟨(load_database_set fs fns2).1, (load_database_set fs fns2).2⟩
          fc lc cc row = ("Safe", "FFFFFF")) := by
  have ha : fs.folderExists = false → ∀ fnames, load_database_set fs fnames = (∅, ∅) := by
    intro h fnames
    simp [load_database_set, h]
  refine ⟨ha, ?_, ?_⟩
  · intro f pre post hmiss
    unfold load_database_set
    split_ifs with hf
    · rw [List.foldl_append, List.foldl_append, List.foldl_cons]
      congr 1
      simp [loadStep, hmiss]
    · rfl
  · intro h mode fns1 fns2 fc lc cc row
    rw [ha h fns1, ha h fns2]
    exact classify_row_empty_groups mode fc lc cc row

/-- Witness for `fail_open_loading`: an absent folder yields empty sets and
`Safe` rows; a missing file drops out of the processed list. -/
theorem fail_open_loading_witness :
    load_database_set ⟨false, fun _ => FileResult.missing⟩ ["imneo.csv", "imneo1.xlsx"] = (∅, ∅)
    ∧ load_database_set ⟨true, fun _ => FileResult.missing⟩
        (["a.csv"] ++ ("gone.csv") :: ["b.csv"])
        = load_database_set ⟨true, fun _ => FileResult.missing⟩ (["a.csv"] ++ ["b.csv"])
    ∧ classify_row (Option.some ("client"))
        ⟨(load_database_set ⟨false, fun _ => FileResult.missing⟩ ["x.csv"]).1,
         (load_database_set ⟨false, fun _ => FileResult.missing⟩ ["x.csv"]).2⟩
        ⟨(load_database_set ⟨false, fun _ => FileResult.missing⟩ ["y.csv"]).1,
         (load_database_set ⟨false, fun _ => FileResult.missing⟩ ["y.csv"]).2⟩
        (Option.some ("first name")) (Option.some ("last name")) (Option.some ("name"))
        [("first name", Option.some ("Jane")), ("last name", Option.some ("Doe")),
         ("name", Option.some ("Acme Corp"))]
        = ("Safe", "FFFFFF") :=
  ⟨(fail_open_loading _).1 rfl _,
   (fail_open_loading _).2.1 ("gone.csv") ["a.csv"] ["b.csv"] rfl,
   (fail_open_loading _).2.2 rfl _ _ _ _ _ _ _⟩

/-- Claim C8: in the reference set builder, per-row company-field extraction is
first-match-wins in exactly the order of `companyAliasesDB`: when every alias
before `a` is absent from the row and `a` is present, the value taken is the
row's value at `a`; when every alias is absent the company value is empty
rather than an error. -/
theorem builder_company_priority :
    (∀ (row : Row) (pre post : List String) (a : String) (v : Value),
        companyAliasesDB = pre ++ a :: post →
        (∀ b ∈ pre, row.lookup b = Option.none) →
        row.lookup a = Option.some v →
        extractField row companyAliasesDB = v)
    ∧ (∀ row : Row, (∀ b ∈ companyAliasesDB, row.lookup b = Option.none) →
        extractField row companyAliasesDB = Option.some "" ∧ rowCompany row = "") := by
  constructor
  · intro row pre post a v hEq hpre ha
    rw [hEq]
    exact extractField_of_earlier_none row pre post a v hpre ha
  · intro row h
    have he := extractField_of_all_none row companyAliasesDB h
    refine ⟨he, ?_⟩
    simp only [rowCompany, he]
    rfl

/-- Witness for `builder_company_priority`: `company` beats the later alias
`huidig bedrijf` even when the latter occurs first in the row. -/
theorem builder_company_priority_witness :
    extractField [("huidig bedrijf", Option.some ("C")), ("company", Option.some ("B"))]
      companyAliasesDB = Option.some ("B") :=
  builder_company_priority.1 _ ["company name"]
    ["huidig bedrijf", "currrent company", "current company", "company table data"]
    ("company") (Option.some ("B")) rfl (by decide) (by decide)

/-- Claim C10: the reference set builder accepts single-component names — for a
reference row whose (normalized) headers match a first-name alias but no
last-name alias, the full name equals the lone normalized first component, and
when non-empty it is added to the group's names set; likewise in reverse. -/
theorem builder_single_component_names (fs : FileSystem) (fnames : List String)
    (fname : String) (rows : List Row) (row : Row)
    (hfold : fs.folderExists = true) (hmem : fname ∈ fnames)
    (hread : fs.readFile fname = FileResult.table rows) (hrow : row ∈ rows) :
    ((∀ b ∈ lastAliases, (normRowHeaders row).lookup b = Option.none) →
      rowFullName (normRowHeaders row)
        = normalize_text (extractField (normRowHeaders row) firstAliases)
      ∧ (normalize_text (extractField (normRowHeaders row) firstAliases) ≠ "" →
         normalize_text (extractField (normRowHeaders row) firstAliases)
           ∈ (load_database_set fs fnames).1))
    ∧ ((∀ b ∈ firstAliases, (normRowHeaders row).lookup b = Option.none) →
      rowFullName (normRowHeaders row)
        = normalize_text (extractField (normRowHeaders row) lastAliases)
      ∧ (normalize_text (extractField (normRowHeaders row) lastAliases) ≠ "" →
         normalize_text (extractField (normRowHeaders row) lastAliases)
           ∈ (load_database_set fs fnames).1)) := by
  constructor
  · intro habs
    have hl := extractField_of_all_none _ _ habs
    have hfn : rowFullName (normRowHeaders row)
        = normalize_text (extractField (normRowHeaders row) firstAliases) := by
      simp only [rowFullName, hl, norm_empty_string]
      exact pyStrip_norm_space_empty _
    refine ⟨hfn, fun hne => ?_⟩
    unfold load_database_set
    rw [if_pos hfold, mem_loadFold_fst]
    refine Or.inl ⟨fname, hmem, rows, hread, row, hrow, ?_, hfn.symm⟩
    rw [hfn]
    exact hne
  · intro habs
    have hl := extractField_of_all_none _ _ habs
    have hfn : rowFullName (normRowHeaders row)
        = normalize_text (extractField (normRowHeaders row) lastAliases) := by
      simp only [rowFullName, hl, norm_empty_string]
      exact pyStrip_empty_space_norm _
    refine ⟨hfn, fun hne => ?_⟩
    unfold load_database_set
    rw [if_pos hfold, mem_loadFold_fst]
    refine Or.inl ⟨fname, hmem, rows, hread, row, hrow, ?_, hfn.symm⟩
    rw [hfn]
    exact hne

/-- Witness for `builder_single_component_names`: a file with only a
`First Name` column contributes the lone normalized first name `jane`. -/
theorem builder_single_component_names_witness :
    normalize_text (extractField (normRowHeaders [("First Name", Option.some (" Jane "))])
        firstAliases)
      ∈ (load_database_set
          ⟨true, fun _ => FileResult.table [[("First Name", Option.some (" Jane "))]]⟩
          ["imneo.csv"]).1 :=
  ((builder_single_component_names _ ["imneo.csv"] ("imneo.csv")
      [[("First Name", Option.some (" Jane "))]] [("First Name", Option.some (" Jane "))]
      rfl (by decide) rfl (by decide)).1 (by decide)).2 (by decide)

end ListChecker
